import Mathlib

set_option maxHeartbeats 1000000

/-!
Verification of the streaming byte-replacement engine in replacer.go
(package transform of the acomagu/text repository).

The engine is Replacer.Transform: it replaces every leftmost,
non-overlapping occurrence of the byte pattern old by new while the
source arrives in chunks, records each replacement in an optional
ReplaceHistory ledger, and signals flow control through the statuses
transform.ErrShortSrc and transform.ErrShortDst of golang.org/x/text.

Shallow embedding conventions:
- bytes are natural numbers (the engine only compares bytes for equality);
- the destination buffer is represented by its length, and the bytes the
  call writes into dst[0:nDst] are returned as a list;
- a nil Go error is Option.none, the two sentinel errors are a small
  inductive type;
- the nil-able *ReplaceHistory receiver is an Option carrying the list of
  records appended so far;
- the unbounded for-loop of Transform is given an explicit iteration
  budget (fuel); the caller passes src.length + 1, which is never
  exhausted because every iteration of the loop body with non-empty old
  consumes at least old.length ≥ 1 source bytes.
-/

namespace TextReplacer

/-- Bytes are modelled as natural numbers; the engine only tests them for equality. -/
abbrev Byte := Nat

/-- The flow-control statuses of golang.org/x/text/transform used by Replacer:
shortSrc models transform.ErrShortSrc and shortDst models transform.ErrShortDst.
A nil Go error is modelled as Option.none. -/
inductive TErr where
  | shortSrc : TErr
  | shortDst : TErr
deriving DecidableEq

/-- One ReplaceHistory record, as appended by ReplaceHistory.add: the match
occupied src[src0:src1] and its replacement occupies dst[dst0:dst1]. -/
structure HistEntry where
  src0 : Nat
  src1 : Nat
  dst0 : Nat
  dst1 : Nat
deriving DecidableEq

/-- Result of one Replacer.Transform call: the counts nDst and nSrc, the
returned error, the bytes written to dst[0:nDst], and the history after the
call (none models a nil *ReplaceHistory). -/
structure Res where
  nDst : Nat
  nSrc : Nat
  err : Option TErr
  out : List Byte
  hist : Option (List HistEntry)
deriving DecidableEq

/-- ReplaceHistory.add: appends one record; a nil receiver ignores the call. -/
def histAdd (h : Option (List HistEntry)) (e : HistEntry) : Option (List HistEntry) :=
  match h with
  | none => none
  | some l => some (l ++ [e])

/-- bytes.Index: the index of the first (leftmost) occurrence of pat in s,
or none when pat does not occur in s. For empty pat it returns 0, as in Go. -/
def bIndex : List Byte → List Byte → Option Nat
  | [], pat => if pat.isPrefixOf ([] : List Byte) then some 0 else none
  | b :: t, pat =>
    if pat.isPrefixOf (b :: t) then some 0
    else Option.map (fun j => j + 1) (bIndex t pat)

/-- The for-loop of Replacer.Transform (replacer.go lines 105-140), with the
mutable per-call state (nDst, nSrc, bytes written so far, history) passed
explicitly. The none arm of bIndex is the i == -1 branch: it computes the
boundary withholding (boundary = remaining length mod old.length, withheld
only when that suffix of src could begin a match of old in a later chunk,
which sets err = ErrShortDst), then copies the unwithheld tail if the
destination has room. The some arm checks that the bytes up to and including
the next replacement fit in the destination (reporting ErrShortDst only when
nothing was written yet this call), copies the unmatched prefix, appends the
ledger record, writes new, advances both cursors and loops. -/
def transformLoop (old new src : List Byte) (dstLen : Nat) (atEOF : Bool) :
    Nat → Nat → Nat → List Byte → Option (List HistEntry) → Res
  | 0, nDst, nSrc, out, hist => ⟨nDst, nSrc, none, out, hist⟩
  | fuel + 1, nDst, nSrc, out, hist =>
    match bIndex (src.drop nSrc) old with
    | none =>
      let n0 := (src.drop nSrc).length
      let boundary := (src.drop nSrc).length % old.length
      let withhold := !atEOF && boundary != 0 &&
        (src.drop (src.length - boundary)).isPrefixOf old
      let n := if withhold then n0 - boundary else n0
      let errW : Option TErr := if withhold then some TErr.shortDst else none
      if dstLen - nDst < n then
        ⟨nDst, nSrc, if nDst = 0 then some TErr.shortDst else errW, out, hist⟩
      else
        ⟨nDst + n, nSrc + n, errW, out ++ (src.drop nSrc).take n, hist⟩
    | some i =>
      if dstLen - nDst < i + new.length then
        ⟨nDst, nSrc, if nDst = 0 then some TErr.shortDst else none, out, hist⟩
      else
        transformLoop old new src dstLen atEOF fuel (nDst + i + new.length)
          (nSrc + i + old.length) (out ++ (src.drop nSrc).take i ++ new)
          (histAdd hist ⟨nSrc + i, nSrc + i + old.length, nDst + i, nDst + i + new.length⟩)

/-- Replacer.Transform (replacer.go lines 89-141) for a Replacer with fields
old, new, history = hist, invoked on a destination buffer of length dstLen,
source chunk src, and the atEOF flag. The first branch is the short-source
guard, the second the empty-old byte copy (copy of min dstLen src.length
bytes), and the third the matching loop. -/
def transform (old new : List Byte) (hist : Option (List HistEntry)) (src : List Byte)
    (dstLen : Nat) (atEOF : Bool) : Res :=
  if src.length < old.length then
    ⟨0, 0, if atEOF then none else some TErr.shortSrc, [], hist⟩
  else if old.length = 0 then
    let n := min dstLen src.length
    ⟨n, n, none, src.take n, hist⟩
  else
    transformLoop old new src dstLen atEOF (src.length + 1) 0 0 [] hist

/-- Go slice expression l[a:b]: defined (some) exactly when 0 ≤ a ≤ b ≤ len(l),
otherwise the program would panic (modelled as none). -/
def slice (l : List Byte) (a b : Nat) : Option (List Byte) :=
  if a ≤ b ∧ b ≤ l.length then some ((l.drop a).take (b - a)) else none

/-- Bounds-explicit rendering of the Transform loop: every Go slice expression
(src[nSrc:], src[len(src)-boundary:], src[nSrc:nSrc+n], src[nSrc:nSrc+i],
dst[nDst:], dst[nDst+i:]) and the modulus by len(old) go through a runtime
check, and a failed check (a Go panic) yields none. Otherwise the computation
is the same as transformLoop. -/
def transformLoopC (old new src : List Byte) (dstLen : Nat) (atEOF : Bool) :
    Nat → Nat → Nat → List Byte → Option (List HistEntry) → Option Res
  | 0, nDst, nSrc, out, hist => some ⟨nDst, nSrc, none, out, hist⟩
  | fuel + 1, nDst, nSrc, out, hist => do
    let rem ← slice src nSrc src.length
    let dstRem ← if nDst ≤ dstLen then some (dstLen - nDst) else none
    match bIndex rem old with
    | none =>
      let n0 := rem.length
      let boundary ← if old.length = 0 then none else some (rem.length % old.length)
      let withhold ← if !atEOF && boundary != 0 then do
          let suffix ← slice src (src.length - boundary) src.length
          pure (suffix.isPrefixOf old)
        else pure false
      let n := if withhold then n0 - boundary else n0
      let errW : Option TErr := if withhold then some TErr.shortDst else none
      if dstRem < n then
        some ⟨nDst, nSrc, if nDst = 0 then some TErr.shortDst else errW, out, hist⟩
      else do
        let seg ← slice src nSrc (nSrc + n)
        some ⟨nDst + n, nSrc + n, errW, out ++ seg, hist⟩
    | some i =>
      if dstRem < i + new.length then
        some ⟨nDst, nSrc, if nDst = 0 then some TErr.shortDst else none, out, hist⟩
      else do
        let pre ← slice src nSrc (nSrc + i)
        let _ ← if nDst + i ≤ dstLen then some () else none
        transformLoopC old new src dstLen atEOF fuel (nDst + i + new.length)
          (nSrc + i + old.length) (out ++ pre ++ new)
          (histAdd hist ⟨nSrc + i, nSrc + i + old.length, nDst + i, nDst + i + new.length⟩)

/-- Bounds-explicit rendering of Replacer.Transform: none would mean a runtime
fault (out-of-range slice or division by zero) somewhere in the call. -/
def transformC (old new : List Byte) (hist : Option (List HistEntry)) (src : List Byte)
    (dstLen : Nat) (atEOF : Bool) : Option Res :=
  if src.length < old.length then
    some ⟨0, 0, if atEOF then none else some TErr.shortSrc, [], hist⟩
  else if old.length = 0 then
    let n := min dstLen src.length
    some ⟨n, n, none, src.take n, hist⟩
  else
    transformLoopC old new src dstLen atEOF (src.length + 1) 0 0 [] hist

/-- Leftmost, non-overlapping replace-all over a whole in-memory buffer,
written from the specification wording: repeatedly find the leftmost
occurrence of old, keep the bytes before it, emit new, and continue after the
matched span. The fuel s.length + 1 always suffices because each step with
non-empty old removes at least one byte. -/
def replAux (old new : List Byte) : Nat → List Byte → List Byte
  | 0, s => s
  | fuel + 1, s =>
    match bIndex s old with
    | none => s
    | some i => s.take i ++ new ++ replAux old new fuel (s.drop (i + old.length))

/-- The non-streaming reference semantics of the spec: replace every leftmost,
non-overlapping occurrence of old by new in s (the identity for empty old). -/
def specReplaceAll (old new s : List Byte) : List Byte :=
  if old.isEmpty then s else replAux old new (s.length + 1) s

/-- The projection of a Transform result that is visible to the caller apart
from the ledger: counts, status and the written destination bytes. -/
def coreRes (r : Res) : Nat × Nat × Option TErr × List Byte :=
  (r.nDst, r.nSrc, r.err, r.out)

/-- The per-entry ledger coordinate law: a record spans exactly old.length
source bytes and exactly new.length destination bytes. -/
def lawfulEntry (oldLen newLen : Nat) (e : HistEntry) : Bool :=
  (e.src1 == e.src0 + oldLen) && (e.dst1 == e.dst0 + newLen)

/-- Adjacent ledger records do not overlap: the earlier record ends at or
before the start of the later one, in both coordinate spaces. -/
def adjacentLE (e f : HistEntry) : Bool :=
  decide (e.src1 ≤ f.src0) && decide (e.dst1 ≤ f.dst0)

/-- All adjacent pairs of the ledger are ordered and non-overlapping. -/
def chainOK : List HistEntry → Bool
  | [] => true
  | [_] => true
  | e :: f :: t => adjacentLE e f && chainOK (f :: t)

/-- The consecutive-records requirement exactly as claim C6 states it:
src0(i) < src1(i) ≤ src0(i+1) and dst0(i) < dst1(i) ≤ dst0(i+1). -/
def strictPair (e f : HistEntry) : Bool :=
  decide (e.src0 < e.src1) && decide (e.src1 ≤ f.src0) &&
  decide (e.dst0 < e.dst1) && decide (e.dst1 ≤ f.dst0)

/-- All consecutive pairs satisfy the strict ordering of claim C6. -/
def strictChain : List HistEntry → Bool
  | [] => true
  | [_] => true
  | e :: f :: t => strictPair e f && strictChain (f :: t)

/-- Claim C6 read literally over an accumulated ledger: every entry spans
oldLen source and newLen destination bytes, and consecutive entries are
strictly increasing and non-overlapping in both coordinate spaces. -/
def claimC6Holds (oldLen newLen : Nat) (h : List HistEntry) : Bool :=
  h.all (fun e => (e.src1 - e.src0 == oldLen) && (e.dst1 - e.dst0 == newLen)) &&
  strictChain h

/-- Modelled from the spec: transform.Chain of golang.org/x/text (an external
collaborator, not part of this repository) chains the transformers so that
stage k emitted destination bytes become the stage k+1 source bytes, strictly
in table order. Each stage is one whole-input Transform call with atEOF =
true and a destination large enough for that stage (src.length * (new.length
+ 1) + new.length + 1 bytes always suffice). -/
def chainApply (rules : List (List Byte × List Byte)) (input : List Byte) : List Byte :=
  rules.foldl
    (fun s rule =>
      (transform rule.1 rule.2 none s (s.length * (rule.2.length + 1) + rule.2.length + 1)
        true).out)
    input

/-- ReplaceAll (replacer.go lines 238-245) applied to a whole input: it builds
one history-less Replacer per table entry, in table order, and chains them;
the chaining itself is modelled from the spec (see chainApply). -/
def replaceAllT (table : List (List Byte × List Byte)) (input : List Byte) : List Byte :=
  chainApply table input

/-! Helper lemmas. -/

lemma isPrefixOf_length {l1 l2 : List Byte} (h : l1.isPrefixOf l2 = true) :
    l1.length ≤ l2.length := by
  induction l1 generalizing l2 with
  | nil => simp
  | cons a t ih =>
    cases l2 with
    | nil => simp [List.isPrefixOf] at h
    | cons b t2 =>
      simp only [List.isPrefixOf, Bool.and_eq_true] at h
      simpa using ih h.2

lemma bIndex_some {s pat : List Byte} {i : Nat} (h : bIndex s pat = some i) :
    pat.isPrefixOf (s.drop i) = true ∧ i + pat.length ≤ s.length := by
  induction s generalizing i with
  | nil =>
    simp only [bIndex] at h
    split at h
    · rename_i hp
      cases h
      exact ⟨hp, by simpa using isPrefixOf_length hp⟩
    · cases h
  | cons b t ih =>
    simp only [bIndex] at h
    split at h
    · rename_i hp
      cases h
      exact ⟨hp, by simpa using isPrefixOf_length hp⟩
    · cases hb : bIndex t pat with
      | none => rw [hb] at h; cases h
      | some j =>
        rw [hb] at h
        simp only [Option.map_some'] at h
        cases h
        obtain ⟨hpre, hlen⟩ := ih hb
        refine ⟨by simpa using hpre, ?_⟩
        simp only [List.length_cons]
        omega

lemma transformLoop_hist_irrel (old new src : List Byte) (dstLen : Nat) (atEOF : Bool) :
    ∀ fuel nDst nSrc out ha hb,
      coreRes (transformLoop old new src dstLen atEOF fuel nDst nSrc out ha) =
        coreRes (transformLoop old new src dstLen atEOF fuel nDst nSrc out hb) := by
  intro fuel
  induction fuel with
  | zero => intro nDst nSrc out ha hb; simp [transformLoop, coreRes]
  | succ fuel ih =>
    intro nDst nSrc out ha hb
    cases hI : bIndex (src.drop nSrc) old with
    | none =>
      simp only [transformLoop, hI]
      split_ifs <;> simp [coreRes]
    | some i =>
      simp only [transformLoop, hI]
      by_cases hc : dstLen - nDst < i + new.length
      · simp [hc, coreRes]
      · simp only [if_neg hc]
        exact ih _ _ _ _ _

lemma slice_to_end {l : List Byte} {a : Nat} (h : a ≤ l.length) :
    slice l a l.length = some (l.drop a) := by
  simp only [slice, h, le_refl, and_true, if_pos]
  rw [List.take_of_length_le]
  simp [List.length_drop]

lemma slice_seg {l : List Byte} {a n : Nat} (h : a + n ≤ l.length) :
    slice l a (a + n) = some ((l.drop a).take n) := by
  simp only [slice]
  rw [if_pos ⟨Nat.le_add_right a n, h⟩, Nat.add_sub_cancel_left]

lemma transformLoop_bounds (old new src : List Byte) (dstLen : Nat) (atEOF : Bool) :
    ∀ fuel nDst nSrc out hist, nSrc ≤ src.length → nDst ≤ dstLen → out.length = nDst →
      (transformLoop old new src dstLen atEOF fuel nDst nSrc out hist).nSrc ≤ src.length ∧
      (transformLoop old new src dstLen atEOF fuel nDst nSrc out hist).nDst ≤ dstLen ∧
      (transformLoop old new src dstLen atEOF fuel nDst nSrc out hist).out.length =
        (transformLoop old new src dstLen atEOF fuel nDst nSrc out hist).nDst := by
  intro fuel
  induction fuel with
  | zero =>
    intro nDst nSrc out hist h1 h2 h3
    simpa [transformLoop] using ⟨h1, h2, h3⟩
  | succ fuel ih =>
    intro nDst nSrc out hist h1 h2 h3
    cases hI : bIndex (src.drop nSrc) old with
    | none =>
      have hBle : (src.length - nSrc) % old.length ≤ src.length - nSrc := Nat.mod_le _ _
      simp only [transformLoop, hI, List.length_drop]
      split_ifs <;>
        refine ⟨?_, ?_, ?_⟩ <;>
          first
            | omega
            | (simp only [List.length_append, List.length_take, List.length_drop]
               omega)
    | some i =>
      obtain ⟨hpre2, hil⟩ := bIndex_some hI
      have hil2 : i + old.length ≤ src.length - nSrc := by
        simpa [List.length_drop] using hil
      simp only [transformLoop, hI]
      by_cases hc : dstLen - nDst < i + new.length
      · simp only [hc, ite_true, if_true, eq_self_iff_true]
        exact ⟨h1, h2, h3⟩
      · simp only [hc, if_false, ite_false]
        exact ih _ _ _ _ (by omega) (by omega)
          (by simp only [List.length_append, List.length_take, List.length_drop]; omega)

lemma transformLoopC_eq (old new src : List Byte) (dstLen : Nat) (atEOF : Bool)
    (hold : ¬ old.length = 0) :
    ∀ fuel nDst nSrc out hist, nSrc ≤ src.length → nDst ≤ dstLen → out.length = nDst →
      transformLoopC old new src dstLen atEOF fuel nDst nSrc out hist =
        some (transformLoop old new src dstLen atEOF fuel nDst nSrc out hist) := by
  intro fuel
  induction fuel with
  | zero =>
    intro nDst nSrc out hist h1 h2 h3
    simp [transformLoop, transformLoopC]
  | succ fuel ih =>
    intro nDst nSrc out hist h1 h2 h3
    have hrem := slice_to_end h1
    cases hI : bIndex (src.drop nSrc) old with
    | none =>
      have hBle : (src.length - nSrc) % old.length ≤ src.length - nSrc := Nat.mod_le _ _
      have hsuf := slice_to_end
        (l := src) (a := src.length - (src.length - nSrc) % old.length) (Nat.sub_le _ _)
      have hsegW := slice_seg (l := src) (a := nSrc)
        (n := (src.length - nSrc) - (src.length - nSrc) % old.length) (by omega)
      have hsegF := slice_seg (l := src) (a := nSrc) (n := src.length - nSrc) (by omega)
      simp only [transformLoopC, transformLoop, Option.bind_eq_bind, hrem,
        Option.some_bind, hI, h2, hold, ite_true, ite_false, if_true, if_false,
        eq_self_iff_true, List.length_drop]
      cases hpre : (List.drop (src.length - (src.length - nSrc) % old.length)
          src).isPrefixOf old <;>
        cases hcnd : (!atEOF && ((src.length - nSrc) % old.length != 0)) <;>
          simp only [hpre, hcnd, hsuf, Option.bind_eq_bind, Option.some_bind,
            Option.pure_def, Bool.true_and, Bool.false_and, Bool.and_true, Bool.and_false,
            if_true, if_false, ite_true, ite_false, eq_self_iff_true] <;>
          (try simp) <;>
          (try split_ifs) <;>
          simp [hsegW, hsegF]
    | some i =>
      obtain ⟨hpre2, hil⟩ := bIndex_some hI
      have hil2 : i + old.length ≤ src.length - nSrc := by
        simpa [List.length_drop] using hil
      have hseg := slice_seg (l := src) (a := nSrc) (n := i) (by omega)
      simp only [transformLoopC, transformLoop, Option.bind_eq_bind, hrem,
        Option.some_bind, hI, h2, ite_true, ite_false, if_true, if_false,
        eq_self_iff_true]
      by_cases hc : dstLen - nDst < i + new.length
      · simp [hc]
      · have hgrd : nDst + i ≤ dstLen := by omega
        simp only [hc, if_false, ite_false, hseg, Option.bind_eq_bind, Option.some_bind,
          hgrd, ite_true, if_true, eq_self_iff_true]
        exact ih _ _ _ _ (by omega) (by omega)
          (by simp only [List.length_append, List.length_take, List.length_drop]; omega)

lemma chainOK_append (e : HistEntry) :
    ∀ l : List HistEntry, chainOK l = true → (∀ x ∈ l, adjacentLE x e = true) →
      chainOK (l ++ [e]) = true := by
  intro l
  induction l with
  | nil => intro _ _; simp [chainOK]
  | cons a t ih =>
    intro hc ha
    cases t with
    | nil =>
      simp only [List.cons_append, List.nil_append, chainOK, Bool.and_eq_true]
      exact ⟨ha a (by simp), trivial⟩
    | cons b t2 =>
      simp only [chainOK, Bool.and_eq_true] at hc
      simp only [List.cons_append, chainOK, Bool.and_eq_true]
      refine ⟨hc.1, ?_⟩
      have := ih hc.2 (fun x hx => ha x (List.mem_cons_of_mem _ hx))
      simpa using this

lemma transformLoop_ledger (old new src : List Byte) (dstLen : Nat) (atEOF : Bool) :
    ∀ fuel nDst nSrc out l0,
      l0.all (lawfulEntry old.length new.length) = true →
      chainOK l0 = true →
      (∀ e ∈ l0, e.src1 ≤ nSrc ∧ e.dst1 ≤ nDst) →
      ((transformLoop old new src dstLen atEOF fuel nDst nSrc out
          (some l0)).hist.getD []).all (lawfulEntry old.length new.length) = true ∧
      chainOK ((transformLoop old new src dstLen atEOF fuel nDst nSrc out
          (some l0)).hist.getD []) = true := by
  intro fuel
  induction fuel with
  | zero =>
    intro nDst nSrc out l0 hall hchain _
    exact ⟨by simpa [transformLoop] using hall, by simpa [transformLoop] using hchain⟩
  | succ fuel ih =>
    intro nDst nSrc out l0 hall hchain hbnd
    cases hI : bIndex (src.drop nSrc) old with
    | none =>
      simp only [transformLoop, hI]
      split_ifs <;> exact ⟨by simpa using hall, by simpa using hchain⟩
    | some i =>
      simp only [transformLoop, hI]
      by_cases hc : dstLen - nDst < i + new.length
      · simp only [hc, ite_true, if_true, eq_self_iff_true]
        exact ⟨by simpa using hall, by simpa using hchain⟩
      · simp only [hc, if_false, ite_false, histAdd]
        apply ih
        · have he : lawfulEntry old.length new.length
              ⟨nSrc + i, nSrc + i + old.length, nDst + i, nDst + i + new.length⟩ = true := by
            simp [lawfulEntry]
          simp [List.all_append, hall, he]
        · apply chainOK_append _ _ hchain
          intro x hx
          have hb := hbnd x hx
          simp only [adjacentLE, Bool.and_eq_true, decide_eq_true_eq]
          exact ⟨by omega, by omega⟩
        · intro e he
          simp only [List.mem_append, List.mem_singleton] at he
          cases he with
          | inl h => have hb := hbnd e h; exact ⟨by omega, by omega⟩
          | inr h => subst h; exact ⟨by simp, by simp⟩

lemma transformLoop_eof (old new src : List Byte) (dstLen : Nat)
    (hold : ¬ old.length = 0) :
    ∀ fuel nDst nSrc out hist,
      nSrc ≤ src.length → src.length - nSrc < fuel →
      nDst + (replAux old new fuel (src.drop nSrc)).length ≤ dstLen →
      (transformLoop old new src dstLen true fuel nDst nSrc out hist).nDst =
          nDst + (replAux old new fuel (src.drop nSrc)).length ∧
      (transformLoop old new src dstLen true fuel nDst nSrc out hist).nSrc = src.length ∧
      (transformLoop old new src dstLen true fuel nDst nSrc out hist).err = none ∧
      (transformLoop old new src dstLen true fuel nDst nSrc out hist).out =
          out ++ replAux old new fuel (src.drop nSrc) := by
  intro fuel
  induction fuel with
  | zero => intro nDst nSrc out hist h1 hfuel hdst; omega
  | succ fuel ih =>
    intro nDst nSrc out hist h1 hfuel hdst
    cases hI : bIndex (src.drop nSrc) old with
    | none =>
      have hRA : replAux old new (fuel + 1) (src.drop nSrc) = src.drop nSrc := by
        simp [replAux, hI]
      rw [hRA] at hdst ⊢
      have hld : (List.drop nSrc src).length = src.length - nSrc := List.length_drop nSrc src
      have hns : ¬ (dstLen - nDst < (List.drop nSrc src).length) := by omega
      simp only [transformLoop, hI, Bool.not_true, Bool.false_and, Bool.false_eq_true,
        if_false, ite_false, hns, List.take_length]
      refine ⟨?_, ?_, ?_, ?_⟩ <;> (first | omega | simp)
    | some i =>
      obtain ⟨hpre2, hil⟩ := bIndex_some hI
      have hil2 : i + old.length ≤ src.length - nSrc := by
        simpa [List.length_drop] using hil
      have hdd : (src.drop nSrc).drop (i + old.length) =
          src.drop (nSrc + i + old.length) := by
        rw [List.drop_drop]
        congr 1
        omega
      have hRA : replAux old new (fuel + 1) (src.drop nSrc) =
          (src.drop nSrc).take i ++ new ++
            replAux old new fuel (src.drop (nSrc + i + old.length)) := by
        simp [replAux, hI, hdd]
      have htl : ((src.drop nSrc).take i).length = i := by
        simp only [List.length_take, List.length_drop]
        omega
      have hRAlen : (replAux old new (fuel + 1) (src.drop nSrc)).length =
          i + new.length +
            (replAux old new fuel (src.drop (nSrc + i + old.length))).length := by
        rw [hRA]
        simp only [List.length_append, htl]
        try omega
      rw [hRAlen] at hdst
      have hc : ¬ (dstLen - nDst < i + new.length) := by omega
      simp only [transformLoop, hI, hc, if_false, ite_false]
      obtain ⟨e1, e2, e3, e4⟩ := ih (nDst + i + new.length) (nSrc + i + old.length)
        (out ++ (src.drop nSrc).take i ++ new)
        (histAdd hist ⟨nSrc + i, nSrc + i + old.length, nDst + i, nDst + i + new.length⟩)
        (by omega) (by omega) (by omega)
      refine ⟨?_, e2, e3, ?_⟩
      · rw [e1, hRAlen]
        omega
      · rw [e4, hRA]
        simp [List.append_assoc]

/-! Claim theorems. -/

/-- Claim C1, amended: for non-empty old, a single Transform call on the whole
buffer with atEOF = true and a destination large enough for the full result
consumes all of src, returns a nil error, and writes exactly the leftmost,
non-overlapping replace-all of old by new over src — provided src is at least
as long as old (for 0 < src.length < old.length the call instead consumes
nothing and writes nothing, so the claim as stated fails there). -/
theorem c1_replaceAll_equiv (old new src : List Byte) (hist : Option (List HistEntry))
    (dstLen : Nat) (hold : old ≠ []) (hlen : old.length ≤ src.length)
    (hdst : (specReplaceAll old new src).length ≤ dstLen) :
    (transform old new hist src dstLen true).nSrc = src.length ∧
    (transform old new hist src dstLen true).err = none ∧
    (transform old new hist src dstLen true).out = specReplaceAll old new src := by
  have hl0 : ¬ old.length = 0 := by simpa [List.length_eq_zero] using hold
  have hRA : specReplaceAll old new src = replAux old new (src.length + 1) src := by
    simp [specReplaceAll, List.isEmpty_iff, hold]
  have hnlt : ¬ (src.length < old.length) := by omega
  simp only [transform, hnlt, if_false, ite_false, hl0]
  have h := transformLoop_eof old new src dstLen hl0 (src.length + 1) 0 0 [] hist
    (by omega) (by omega) (by simpa [hRA] using hdst)
  simp only [List.drop_zero, List.nil_append, Nat.zero_add] at h
  exact ⟨h.2.1, h.2.2.1, by rw [h.2.2.2, ← hRA]⟩

/-- Witness for C1 at old = "a", new = "bb", src = "ac", dstLen = 5. -/
theorem c1_replaceAll_equiv_witness :
    (transform [97] [98, 98] none [97, 99] 5 true).nSrc = [97, 99].length ∧
    (transform [97] [98, 98] none [97, 99] 5 true).err = none ∧
    (transform [97] [98, 98] none [97, 99] 5 true).out =
      specReplaceAll [97] [98, 98] [97, 99] :=
  c1_replaceAll_equiv [97] [98, 98] [97, 99] none 5 (by decide) (by decide) (by decide)

/-- Counterexample to C1 as stated: with old = "ab" and the one-byte source
"a" at EOF, the first guard of Transform returns without consuming or
producing anything, yet the claim demands nSrc = 1 and output "a" (the
replace-all of "ab" over "a"). -/
theorem c1_counterexample :
    (transform [97, 98] [99] none [97] 5 true).nSrc = 0 ∧
    (transform [97, 98] [99] none [97] 5 true).err = none ∧
    (transform [97, 98] [99] none [97] 5 true).out = [] ∧
    specReplaceAll [97, 98] [99] [97] = [97] := by decide

/-- Claim C2 evidence (code bug): old = "ab", new = "X", src = "aabb" holds
exactly one occurrence of old. Splitting at k = 2 gives chunks "aa" (atEOF =
false) and "bb" (atEOF = true). The first call consumes all of "aa" and
withholds nothing, because the boundary heuristic computes 2 mod 2 = 0, so
the occurrence spanning the seam is missed: the two-chunk output is "aabb"
while the single-call output is "aXb". -/
theorem c2_boundary_miss :
    (transform [97, 98] [88] none [97, 97] 10 false).nSrc = 2 ∧
    (transform [97, 98] [88] none [97, 97] 10 false).err = none ∧
    (transform [97, 98] [88] none [97, 97] 10 false).out = [97, 97] ∧
    (transform [97, 98] [88] none [98, 98] 10 true).nSrc = 2 ∧
    (transform [97, 98] [88] none [98, 98] 10 true).out = [98, 98] ∧
    (transform [97, 98] [88] none [97, 97, 98, 98] 10 true).out = [97, 88, 98] ∧
    (transform [97, 98] [88] none [97, 97] 10 false).out ++
        (transform [97, 98] [88] none [98, 98] 10 true).out ≠
      (transform [97, 98] [88] none [97, 97, 98, 98] 10 true).out := by decide

/-- Claim C3: whenever the source chunk is shorter than old and atEOF is
false, Transform consumes nothing, produces nothing, and reports
transform.ErrShortSrc. -/
theorem c3_short_source (old new : List Byte) (hist : Option (List HistEntry))
    (src : List Byte) (dstLen : Nat) (hlt : src.length < old.length) :
    transform old new hist src dstLen false = ⟨0, 0, some TErr.shortSrc, [], hist⟩ := by
  simp [transform, hlt]

/-- Witness for C3 at old = "ab", src = "a". -/
theorem c3_short_source_witness :
    transform [97, 98] [] none [97] 4 false = ⟨0, 0, some TErr.shortSrc, [], none⟩ :=
  c3_short_source [97, 98] [] none [97] 4 (by decide)

/-- Claim C4, amended: with empty old, Transform copies exactly
min dstLen src.length bytes verbatim, never touches the ledger, and always
returns a nil error — also when the destination is shorter than the source
(the claim as stated expects ErrShortDst there, which the code refutes). -/
theorem c4_empty_old_copy (new : List Byte) (hist : Option (List HistEntry))
    (src : List Byte) (dstLen : Nat) (atEOF : Bool) :
    transform [] new hist src dstLen atEOF =
      ⟨min dstLen src.length, min dstLen src.length, none,
        src.take (min dstLen src.length), hist⟩ := by
  simp [transform]

/-- Counterexample to C4 as stated: empty old, two source bytes, a one-byte
destination: the engine copies one byte and returns a nil error, not
transform.ErrShortDst. -/
theorem c4_counterexample :
    (transform [] [] (some []) [0, 1] 1 true).nDst = 1 ∧
    (transform [] [] (some []) [0, 1] 1 true).nSrc = 1 ∧
    (transform [] [] (some []) [0, 1] 1 true).err ≠ some TErr.shortDst := by decide

/-- Claim C5, amended: when the loop finds the next occurrence of old at
relative offset i but the remaining destination space is smaller than
i + new.length, it stops and returns exactly the counts accumulated so far
this call, and it reports transform.ErrShortDst only when nothing at all was
written this call (nDst = 0); with partial progress the error is nil
(a concrete run exhibits the nil error with nDst = 2). -/
theorem c5_match_needs_room (old new src : List Byte) (dstLen : Nat) (atEOF : Bool)
    (fuel nDst nSrc : Nat) (out : List Byte) (hist : Option (List HistEntry)) (i : Nat)
    (hI : bIndex (src.drop nSrc) old = some i)
    (hc : dstLen - nDst < i + new.length) :
    transformLoop old new src dstLen atEOF (fuel + 1) nDst nSrc out hist =
      ⟨nDst, nSrc, if nDst = 0 then some TErr.shortDst else none, out, hist⟩ := by
  simp [transformLoop, hI, hc]

/-- Witness for C5: old = "a", new = "bb", src = "a", empty-handed loop entry
with a one-byte destination reports ErrShortDst and consumes nothing. -/
theorem c5_match_needs_room_witness :
    transformLoop [97] [98, 98] [97] 1 true 1 0 0 [] none =
      ⟨0, 0, some TErr.shortDst, [], none⟩ := by
  simpa using c5_match_needs_room [97] [98, 98] [97] 1 true 0 0 0 [] none 0 (by decide)
    (by decide)

/-- Counterexample to C5 as stated: old = "a", new = "bb", src = "aa",
dstLen = 3, atEOF = true. The first match is replaced (nDst = 2, nSrc = 1);
the second match needs 2 more destination bytes but only 1 remains, and the
engine returns a nil error because bytes were already written this call —
the claim demands ErrShortDst here. -/
theorem c5_counterexample :
    (transform [97] [98, 98] none [97, 97] 3 true).nDst = 2 ∧
    (transform [97] [98, 98] none [97, 97] 3 true).nSrc = 1 ∧
    (transform [97] [98, 98] none [97, 97] 3 true).err = none := by decide

/-- Claim C6, amended: within a single Transform call started with an empty
ledger, every recorded entry spans exactly old.length source bytes and
exactly new.length destination bytes (so src0 < src1 whenever old is
non-empty, and dst0 ≤ dst1, with equality exactly when new is empty), and
consecutive entries are non-overlapping and monotone: src1(i) ≤ src0(i+1)
and dst1(i) ≤ dst0(i+1). The cross-call version of the claim is false
because the recorded coordinates restart at 0 in every call, and
dst0 < dst1 fails for empty new. -/
theorem c6_ledger_laws (old new src : List Byte) (dstLen : Nat) (atEOF : Bool) :
    (((transform old new (some []) src dstLen atEOF).hist).getD []).all
        (lawfulEntry old.length new.length) = true ∧
    chainOK (((transform old new (some []) src dstLen atEOF).hist).getD []) = true := by
  by_cases h1 : src.length < old.length
  · simp [transform, h1, chainOK]
  · by_cases h2 : old.length = 0
    · simp [transform, h1, h2, chainOK]
    · simp only [transform, h1, h2, if_false, ite_false]
      exact transformLoop_ledger old new src dstLen atEOF (src.length + 1) 0 0 [] []
        (by simp) (by simp [chainOK]) (by simp)

/-- Counterexample to C6 as stated: replacing old = "a" by new = "" in the
one-byte stream "a", twice over the lifetime of one engine, leaves the
ledger [⟨0,1,0,0⟩, ⟨0,1,0,0⟩]: the entries satisfy the length laws, but
dst0 < dst1 fails (new is empty) and src1(0) ≤ src0(1) fails (coordinates
reset per call), so the strict whole-stream ordering demanded by the claim
is false. -/
theorem c6_counterexample :
    (transform [97] [] ((transform [97] [] (some []) [97] 10 true).hist)
        [97] 10 true).hist = some [⟨0, 1, 0, 0⟩, ⟨0, 1, 0, 0⟩] ∧
    claimC6Holds 1 0 [⟨0, 1, 0, 0⟩, ⟨0, 1, 0, 0⟩] = false := by decide

/-- Claim C7, amended: with a zero-length destination, non-empty old,
non-empty new, and a source at least as long as old, Transform reports
transform.ErrShortDst, consumes 0 bytes and produces 0 bytes. The claim as
stated fails for the excluded shapes: a source shorter
than old yields ErrShortSrc or nil, empty old yields nil, and empty new can
consume source bytes without any destination space. -/
theorem c7_zero_dst (old new : List Byte) (hist : Option (List HistEntry)) (src : List Byte)
    (atEOF : Bool) (hold : old ≠ []) (hnew : new ≠ []) (hlen : old.length ≤ src.length) :
    transform old new hist src 0 atEOF = ⟨0, 0, some TErr.shortDst, [], hist⟩ := by
  have hl0 : ¬ old.length = 0 := by simpa [List.length_eq_zero] using hold
  have hm0 : ¬ new.length = 0 := by simpa [List.length_eq_zero] using hnew
  have hnlt : ¬ (src.length < old.length) := by omega
  simp only [transform, hnlt, if_false, ite_false, hl0]
  cases hI : bIndex (src.drop 0) old with
  | some i =>
    have hc : (0 : Nat) - 0 < i + new.length := by omega
    simp only [transformLoop, hI]
    rw [if_pos hc]
    simp
  | none =>
    rw [List.drop_zero] at hI
    have hBlt : src.length % old.length < old.length := Nat.mod_lt _ (by omega)
    simp only [transformLoop, hI, List.drop_zero, List.length_drop]
    split_ifs <;> first | (exfalso; omega) | simp

/-- Witness for C7 at old = "ab", new = "c", src = "aba", atEOF = false. -/
theorem c7_zero_dst_witness :
    transform [97, 98] [99] none [97, 98, 97] 0 false =
      ⟨0, 0, some TErr.shortDst, [], none⟩ :=
  c7_zero_dst [97, 98] [99] none [97, 98, 97] false (by decide) (by decide) (by decide)

/-- Counterexample to C7 as stated: three zero-destination calls on non-empty
sources that do not report ErrShortDst — a source shorter than old yields
ErrShortSrc, an empty old yields a nil error, and an empty new consumes the
whole source (two bytes) while producing nothing. -/
theorem c7_counterexample :
    (transform [97, 98] [99] none [97] 0 false).err = some TErr.shortSrc ∧
    (transform [] [99] none [97] 0 true).err = none ∧
    (transform [97] [] none [97, 97] 0 true).nSrc = 2 ∧
    (transform [97] [] none [97, 97] 0 true).err = none := by decide

/-- Claim C8: the pipeline built from the ordered table [("a","b"), ("b","c")]
rewrites the input "a" to "c": the second stage transforms the first stage
output, so application is sequential in table order, not simultaneous (which
would give "b"). -/
theorem c8_pipeline_sequential :
    replaceAllT [([97], [98]), ([98], [99])] [97] = [99] ∧
    replaceAllT [([97], [98]), ([98], [99])] [97] ≠ [98] := by decide

/-- Claim C9: Transform with a nil history returns the same counts, the same
error and the same destination bytes as Transform with a fresh non-nil
history; the ledger never influences the visible behaviour. -/
theorem c9_history_independent (old new src : List Byte) (dstLen : Nat) (atEOF : Bool) :
    coreRes (transform old new none src dstLen atEOF) =
      coreRes (transform old new (some []) src dstLen atEOF) := by
  by_cases h1 : src.length < old.length
  · simp [transform, h1, coreRes]
  · by_cases h2 : old.length = 0
    · simp [transform, h1, h2, coreRes]
    · simp only [transform, h1, h2, if_false, ite_false]
      exact transformLoop_hist_irrel old new src dstLen atEOF (src.length + 1) 0 0 []
        none (some [])

/-- Claim C10: the bounds-explicit rendering of Transform never reaches a
runtime fault — every slice is in range, so transformC always returns some —
and the result satisfies nSrc ≤ src.length, nDst ≤ dstLen, and the written
bytes are exactly dst[0:nDst] (the output list has length nDst). -/
theorem c10_in_bounds (old new : List Byte) (hist : Option (List HistEntry))
    (src : List Byte) (dstLen : Nat) (atEOF : Bool) :
    transformC old new hist src dstLen atEOF =
        some (transform old new hist src dstLen atEOF) ∧
    (transform old new hist src dstLen atEOF).nSrc ≤ src.length ∧
    (transform old new hist src dstLen atEOF).nDst ≤ dstLen ∧
    (transform old new hist src dstLen atEOF).out.length =
      (transform old new hist src dstLen atEOF).nDst := by
  by_cases h1 : src.length < old.length
  · simp [transform, transformC, h1]
  · by_cases h2 : old.length = 0
    · refine ⟨by simp [transform, transformC, h1, h2], ?_, ?_, ?_⟩ <;>
        simp [transform, transformC, h1, h2, List.length_take]
    · simp only [transform, transformC, h1, h2, if_false, ite_false]
      exact ⟨transformLoopC_eq old new src dstLen atEOF h2 _ _ _ _ _ (by omega) (by omega)
          rfl,
        transformLoop_bounds old new src dstLen atEOF _ _ _ _ _ (by omega) (by omega) rfl⟩

end TextReplacer
